/-
  Verification of the "Nightfall Descent" timed story-reveal widget
  (src/src/app/page.tsx): a shallow embedding of its script data model,
  playback controller and derived presentation queries, together with an
  event-loop small-step semantics for the timer / animation-frame
  scheduling, and proofs about its reachable states.

  Times are modelled as integer milliseconds (ℤ).  The host clock
  (`performance.now()`) returns real numbers, but every constant in the
  source and every instant appearing in the properties below is integral,
  and no operation of the source distinguishes the two; the two genuinely
  fractional derived values (the progress fraction and the ceiling inside
  `formatSeconds`) are computed in ℚ exactly as the source computes them
  over JavaScript numbers.
-/
import Mathlib

/-- The three coarse lifecycle phases of a playback run
    (`useState<"idle" | "running" | "finished">`). -/
inductive Phase where
  | idle
  | running
  | finished
  deriving DecidableEq

/-- One unit of narrative text with a scheduled reveal time
    (source type `StorySegment`). -/
structure StorySegment where
  id : String
  label : String
  delayMs : ℤ
  text : String
  deriving DecidableEq

/-- The fixed script (source constant `storySegments`). -/
def storySegments : List StorySegment :=
  [ { id := "sealed", label := "00:00", delayMs := 0,
      text := "The elevator doors exhaled a final gasp as they sealed, swallowing the hallway's safe fluorescence behind you." },
    { id := "countdown", label := "00:05", delayMs := 5000,
      text := "Floor numbers tumbled in reverse, skipping entire levels as though something hungry was chewing through the cable." },
    { id := "warning", label := "00:10", delayMs := 10000,
      text := "The intercom crackled alive with a voice that sounded almost like yours: “Twenty seconds is all the warning you'll ever get.”" },
    { id := "reflection", label := "00:15", delayMs := 15000,
      text := "Emergency lights bled the car in red haze; the steel walls reflected everyone in the elevator—except you." },
    { id := "arrival", label := "00:20", delayMs := 20000,
      text := "The doors slid open on a hallway cloned from your apartment, but the picture frames showed tonight's photo: you already inside, eyes hollow, waiting." } ]

/-- `segs[segs.length - 1]?.delayMs ?? 20000`, abstracted over the segment
    list so that the empty-list behaviour of the optional-chaining plus
    fallback expression can be stated.  (For the empty list JavaScript
    indexes at -1 and gets `undefined`; here `length - 1` truncates to 0
    and `get? 0 []` is `none` — both paths take the `?? 20000` fallback.) -/
def totalDurationOf (segs : List StorySegment) : ℤ :=
  ((segs.get? (segs.length - 1)).map StorySegment.delayMs).getD 20000

/-- Source constant `totalDuration` (line 45). -/
def totalDuration : ℤ := totalDurationOf storySegments

/-- JavaScript `s.padStart(2, "0")` as used on the seconds string. -/
def padStart2 (s : String) : String :=
  if s.length < 2 then String.mk (List.replicate (2 - s.length) '0') ++ s else s

/-- Source function `formatSeconds` (lines 47-51): clamp to 0, ceil-divide
    by 1000, render as a zero-padded two-digit count prefixed "00:". -/
def formatSeconds (ms : ℤ) : String :=
  let safeMs := max ms 0
  let seconds : ℤ := ⌈(safeMs : ℚ) / 1000⌉
  "00:" ++ padStart2 (toString seconds)

/-- Derived value `progress` (source line 92):
    `phase === "idle" ? 0 : Math.min(elapsed / totalDuration, 1)`.
    Note the absence of a lower clamp. -/
def progress (ph : Phase) (elapsed : ℤ) : ℚ :=
  if ph = Phase.idle then 0 else min ((elapsed : ℚ) / (totalDuration : ℚ)) 1

/-- Derived value `remainingLabel` (source lines 93-94). -/
def remainingLabel (ph : Phase) (elapsed : ℤ) : String :=
  if ph = Phase.finished then "00:00" else formatSeconds (totalDuration - elapsed)

/-- Derived value `revealedSegments` (source lines 96-101):
    `activeIndex < 0 ? [] : storySegments.slice(0, activeIndex + 1)`. -/
def revealedSegments (activeIndex : ℤ) : List StorySegment :=
  if activeIndex < 0 then [] else storySegments.take (activeIndex + 1).toNat

/-- The marker text rendered for a revealed segment at position `i`
    (source lines 154-173): `isActive` is `index === activeIndex &&
    phase !== "finished"`; `isFinal` compares the segment id with the last
    segment's id; the rendered marker is `Now` when active, else `Arrival`
    when final and finished, else `Echo`. -/
def segMarker (segment : StorySegment) (i : ℕ) (activeIndex : ℤ) (ph : Phase) : String :=
  if (i : ℤ) = activeIndex ∧ ph ≠ Phase.finished then "Now"
  else if ((storySegments.get? (storySegments.length - 1)).map StorySegment.id
             = some segment.id) ∧ ph = Phase.finished then "Arrival"
  else "Echo"

/-- The spec's description of the remaining-time label, written from its
    words: finished shows "00:00"; otherwise "00:" followed by
    `ceil(max(totalDuration − elapsed, 0)/1000)` zero-padded to two
    digits. -/
def specRemainingLabel (ph : Phase) (elapsed : ℤ) : String :=
  if ph = Phase.finished then "00:00"
  else "00:" ++ padStart2 (toString (⌈((max (totalDuration - elapsed) 0 : ℤ) : ℚ) / 1000⌉ : ℤ))

/-- The four reactive state variables of the component
    (`phase`, `runKey`, `activeIndex`, `elapsed`). -/
structure PlaybackState where
  phase : Phase
  runKey : ℕ
  activeIndex : ℤ
  elapsed : ℤ
  deriving DecidableEq

/-- The initial `useState` values (lines 54-57). -/
def initPlayback : PlaybackState :=
  { phase := Phase.idle, runKey := 0, activeIndex := -1, elapsed := 0 }

/-- Source handler `handleStart` (lines 105-110). -/
def handleStart (st : PlaybackState) : PlaybackState :=
  { st with activeIndex := 0, elapsed := 0, phase := Phase.running,
            runKey := st.runKey + 1 }

/-- Source handler `handleReplay` (lines 112-117). -/
def handleReplay (st : PlaybackState) : PlaybackState :=
  { st with activeIndex := 0, elapsed := 0, phase := Phase.running,
            runKey := st.runKey + 1 }

/-- The body of the reveal-timeout callback `() => setActiveIndex(index + 1)`
    scheduled for `storySegments.slice(1)[index]` (lines 64-68).  It closes
    over nothing but `index`: in particular it neither reads nor compares
    the run identifier. -/
def revealCallback (index : ℕ) (st : PlaybackState) : PlaybackState :=
  { st with activeIndex := (index : ℤ) + 1 }

/-- The body of the progress-loop callback `loop` (lines 73-82), fired with
    timestamp `time`, given the `start` value captured by the enclosing
    effect.  It stores `nextElapsed = min(time - start, totalDuration)` and
    either re-requests a frame (second component `true`) or sets the phase
    to finished. -/
def loopCallback (start time : ℤ) (st : PlaybackState) : PlaybackState × Bool :=
  let nextElapsed := min (time - start) totalDuration
  if nextElapsed < totalDuration then ({ st with elapsed := nextElapsed }, true)
  else ({ st with elapsed := nextElapsed, phase := Phase.finished }, false)

/-- A pending `setTimeout` reveal.  `index` is the captured slice index
    (firing runs `revealCallback index`); `due` its absolute fire time;
    `run` is a ghost annotation recording the `runKey` current when the
    effect scheduled it, used only to state staleness properties. -/
structure Timeout where
  run : ℕ
  due : ℤ
  index : ℕ
  deriving DecidableEq

/-- The timeouts created by the effect body (lines 64-68):
    `storySegments.slice(1).map((segment, index) =>
       setTimeout(() => setActiveIndex(index + 1), segment.delayMs))`,
    scheduled at absolute time `t`. -/
def scheduleReveals (run : ℕ) (t : ℤ) : List Timeout :=
  ((storySegments.drop 1).enum).map
    (fun p => { run := run, due := t + p.2.delayMs, index := p.1 })

/-- The whole interactive system: the reactive state plus the host
    scheduler's bookkeeping (current time, the captured run-start clock
    value, the pending reveal timeouts, and whether an animation frame is
    requested, tagged like the timeouts with the scheduling run). -/
structure SysState where
  now : ℤ
  st : PlaybackState
  runStart : ℤ
  pendingTimeouts : List Timeout
  pendingFrame : Option ℕ
  deriving DecidableEq

/-- One run of the `useEffect` body (lines 59-90) together with the
    cleanup of the previous effect instance, executed atomically after a
    change of `phase` or `runKey`: the cleanup clears every reveal timeout
    and cancels the animation-frame request (all pending ones belong to
    the outgoing effect instance); the new body returns early unless the
    phase is `running`, in which case it schedules the reveal timeouts,
    captures `start = performance.now()` and requests the first frame. -/
def effectRun (s : SysState) : SysState :=
  let c : SysState := { s with pendingTimeouts := [], pendingFrame := none }
  if c.st.phase = Phase.running then
    { c with pendingTimeouts := scheduleReveals c.st.runKey c.now,
             runStart := c.now,
             pendingFrame := some c.st.runKey }
  else c

/-- A click on "Begin Descent" at time `t`: `handleStart` runs, then the
    effect re-fires (its dependencies `phase`, `runKey` changed). -/
def startEventAt (t : ℤ) (s : SysState) : SysState :=
  effectRun { s with now := t, st := handleStart s.st }

/-- A click on "Replay Descent" at time `t`. -/
def replayEventAt (t : ℤ) (s : SysState) : SysState :=
  effectRun { s with now := t, st := handleReplay s.st }

/-- Delivery of a pending reveal timeout: the callback runs
    (`setActiveIndex(index + 1)`), which changes no effect dependency, so
    no cleanup is triggered. -/
def fireTimeoutAt (o : Timeout) (s : SysState) : SysState :=
  { s with now := o.due,
           st := revealCallback o.index s.st,
           pendingTimeouts := s.pendingTimeouts.erase o }

/-- Delivery of the animation-frame callback with timestamp `t`: `loop`
    runs; if it reaches `totalDuration` it sets the phase to finished,
    which triggers the effect cleanup (cancelling the still-pending reveal
    timeouts and the frame request). -/
def fireFrameAt (t : ℤ) (s : SysState) : SysState :=
  let r := loopCallback s.runStart t s.st
  if r.2 then { s with now := t, st := r.1 }
  else effectRun { s with now := t, st := r.1, pendingFrame := none }

/-- The initial system state: initial reactive state, nothing scheduled. -/
def initState : SysState :=
  { now := 0, st := initPlayback, runStart := 0,
    pendingTimeouts := [], pendingFrame := none }

/-- Discrete-event semantics of the hosting event loop.  Events carry
    absolute timestamps and are delivered in nondecreasing timestamp
    order: a timeout fires at its due time, and only when no other pending
    timeout is due earlier (timers of one run fire in increasing offset
    order); an animation frame fires at any chosen time not beyond a
    pending timeout's due time — equal timestamps may be delivered in
    either order, which is exactly the interleaving freedom the host
    grants between a reveal timer and a frame at a similar instant.  The
    user can press start only when idle and replay only when finished (the
    only phases in which the UI renders those buttons). -/
inductive Step : SysState → SysState → Prop where
  | start (s : SysState) (t : ℤ) (hphase : s.st.phase = Phase.idle)
      (ht : s.now ≤ t) : Step s (startEventAt t s)
  | replay (s : SysState) (t : ℤ) (hphase : s.st.phase = Phase.finished)
      (ht : s.now ≤ t) : Step s (replayEventAt t s)
  | timeout (s : SysState) (o : Timeout) (hmem : o ∈ s.pendingTimeouts)
      (hmin : ∀ o' ∈ s.pendingTimeouts, o.due ≤ o'.due) :
      Step s (fireTimeoutAt o s)
  | frame (s : SysState) (r : ℕ) (t : ℤ) (hf : s.pendingFrame = some r)
      (ht : s.now ≤ t) (hdes : ∀ o ∈ s.pendingTimeouts, t ≤ o.due) :
      Step s (fireFrameAt t s)

/-- States reachable from the initial state. -/
inductive Reachable : SysState → Prop where
  | init : Reachable initState
  | step {s s' : SysState} : Reachable s → Step s s' → Reachable s'

/-- While running, `activeIndex` is the count of delivered reveals and the
    pending timeouts are exactly the not-yet-delivered suffix of the
    current run's schedule. -/
def runTimeoutsInv (s : SysState) : Prop :=
  ∃ k : ℕ, k ≤ 4 ∧ s.st.activeIndex = (k : ℤ) ∧
    s.pendingTimeouts = (scheduleReveals s.st.runKey s.runStart).drop k

/-- The inductive invariant of the event-loop semantics. -/
def SysInv (s : SysState) : Prop :=
  0 ≤ s.st.elapsed ∧ s.st.elapsed ≤ totalDuration ∧
  s.runStart ≤ s.now ∧
  (∀ o ∈ s.pendingTimeouts, o.run = s.st.runKey ∧ s.now ≤ o.due) ∧
  (∀ r, s.pendingFrame = some r → r = s.st.runKey) ∧
  (s.st.phase = Phase.idle →
    s.st.activeIndex = -1 ∧ s.st.elapsed = 0 ∧
    s.pendingTimeouts = [] ∧ s.pendingFrame = none) ∧
  (s.st.phase = Phase.running →
    s.st.elapsed < totalDuration ∧ runTimeoutsInv s) ∧
  (s.st.phase = Phase.finished →
    s.st.elapsed = totalDuration ∧
    (s.st.activeIndex = 3 ∨ s.st.activeIndex = 4) ∧
    s.pendingTimeouts = [] ∧ s.pendingFrame = none)

/-- The system state reached by: start at 0; reveals at 5000, 10000 and
    15000 delivered; then the animation frame with timestamp 20000
    delivered before the reveal timeout due at the same instant 20000.
    The frame sets the phase to finished and the effect cleanup cancels
    the last reveal, which therefore never sets `activeIndex` to 4. -/
def raceState : SysState :=
  fireFrameAt 20000
    (fireTimeoutAt { run := 1, due := 15000, index := 2 }
      (fireTimeoutAt { run := 1, due := 10000, index := 1 }
        (fireTimeoutAt { run := 1, due := 5000, index := 0 }
          (startEventAt 0 initState))))

/-- A reactive state of a second run (`runKey = 2`), as `handleStart`
    leaves it just after a restart, used to exercise a reveal callback of
    the first run against it. -/
def staleState : PlaybackState :=
  { phase := Phase.running, runKey := 2, activeIndex := 0, elapsed := 100 }

/-- `totalDuration` evaluates to the last segment's offset. -/
theorem totalDuration_eq : totalDuration = 20000 := rfl

/-- The effect's reveal schedule, evaluated on the concrete script: one
    timeout per segment after the first, at that segment's offset. -/
theorem scheduleReveals_eq (run : ℕ) (t : ℤ) :
    scheduleReveals run t =
      [ { run := run, due := t + 5000, index := 0 },
        { run := run, due := t + 10000, index := 1 },
        { run := run, due := t + 15000, index := 2 },
        { run := run, due := t + 20000, index := 3 } ] := rfl

/-- Normal form of a start event. -/
theorem startEventAt_eq (t : ℤ) (s : SysState) :
    startEventAt t s =
      { now := t,
        st := { phase := Phase.running, runKey := s.st.runKey + 1,
                activeIndex := 0, elapsed := 0 },
        runStart := t,
        pendingTimeouts := scheduleReveals (s.st.runKey + 1) t,
        pendingFrame := some (s.st.runKey + 1) } := rfl

/-- Normal form of a replay event: identical to a start event. -/
theorem replayEventAt_eq (t : ℤ) (s : SysState) :
    replayEventAt t s =
      { now := t,
        st := { phase := Phase.running, runKey := s.st.runKey + 1,
                activeIndex := 0, elapsed := 0 },
        runStart := t,
        pendingTimeouts := scheduleReveals (s.st.runKey + 1) t,
        pendingFrame := some (s.st.runKey + 1) } := rfl

/-- The invariant holds initially. -/
theorem sysInv_init : SysInv initState := by
  refine ⟨by decide, by decide, by decide, ?_, ?_, ?_, ?_, ?_⟩
  · intro o ho; simp [initState] at ho
  · intro r hr; simp [initState] at hr
  · intro _; exact ⟨rfl, rfl, rfl, rfl⟩
  · intro h; simp [initState, initPlayback] at h
  · intro h; simp [initState, initPlayback] at h

/-- Any start event establishes the invariant. -/
theorem sysInv_startEvent (s : SysState) (t : ℤ) : SysInv (startEventAt t s) := by
  rw [startEventAt_eq]
  refine ⟨?_, ?_, le_refl t, ?_, ?_, ?_, ?_, ?_⟩
  · show (0 : ℤ) ≤ 0; decide
  · show (0 : ℤ) ≤ totalDuration; decide
  · intro o ho
    rw [scheduleReveals_eq] at ho
    simp only [List.mem_cons, List.not_mem_nil, or_false] at ho
    rcases ho with h | h | h | h <;> subst h <;> exact ⟨rfl, by simp <;> omega⟩
  · intro r hr
    simpa using hr.symm
  · intro h; exact Phase.noConfusion h
  · intro _
    refine ⟨?_, 0, by omega, by simp, by rw [List.drop_zero]⟩
    show (0 : ℤ) < totalDuration; decide
  · intro h; exact Phase.noConfusion h

/-- Any replay event establishes the invariant. -/
theorem sysInv_replayEvent (s : SysState) (t : ℤ) : SysInv (replayEventAt t s) := by
  rw [replayEventAt_eq, ← startEventAt_eq]
  exact sysInv_startEvent s t

/-- Delivering a due reveal timeout preserves the invariant. -/
theorem sysInv_timeout (s : SysState) (o : Timeout)
    (hinv : SysInv s) (hmem : o ∈ s.pendingTimeouts)
    (hmin : ∀ o' ∈ s.pendingTimeouts, o.due ≤ o'.due) :
    SysInv (fireTimeoutAt o s) := by
  obtain ⟨he0, he1, hrn, hpend, hfr, hidle, hrun, hfin⟩ := hinv
  cases hph : s.st.phase with
  | idle =>
    rw [(hidle hph).2.2.1] at hmem; simp at hmem
  | finished =>
    rw [(hfin hph).2.2.1] at hmem; simp at hmem
  | running =>
    obtain ⟨hel, k, hk, haI, hps⟩ := hrun hph
    rw [scheduleReveals_eq] at hps
    have hnow := (hpend o hmem).2
    interval_cases k
    · -- k = 0: o must be the head, due runStart + 5000
      have hhead : o = { run := s.st.runKey, due := s.runStart + 5000, index := 0 } := by
        rw [hps] at hmem
        have hh := hmin { run := s.st.runKey, due := s.runStart + 5000, index := 0 }
          (by rw [hps]; simp)
        simp only [List.drop_zero, List.mem_cons, List.not_mem_nil, or_false] at hmem
        rcases hmem with h | h | h | h
        · exact h
        all_goals (exfalso; subst h; simp at hh <;> omega)
      subst hhead
      simp only [fireTimeoutAt, revealCallback]
      rw [hps]
      simp only [List.drop_zero, List.erase_cons_head]
      refine ⟨he0, he1, by simp at hnow ⊢ <;> omega, ?_, ?_, ?_, ?_, ?_⟩
      · intro o' ho'
        simp only [List.mem_cons, List.not_mem_nil, or_false] at ho'
        rcases ho' with h | h | h <;> subst h <;> exact ⟨rfl, by simp <;> omega⟩
      · intro r hr; exact hfr r hr
      · intro h; rw [hph] at h; exact Phase.noConfusion h
      · intro _
        refine ⟨hel, 1, by omega, by norm_num, ?_⟩
        rw [scheduleReveals_eq]; rfl
      · intro h; rw [hph] at h; exact Phase.noConfusion h
    · -- k = 1: o must be the timeout due runStart + 10000
      have hhead : o = { run := s.st.runKey, due := s.runStart + 10000, index := 1 } := by
        rw [hps] at hmem
        have hh := hmin { run := s.st.runKey, due := s.runStart + 10000, index := 1 }
          (by rw [hps]; simp)
        simp only [List.drop_succ_cons, List.drop_zero, List.mem_cons,
          List.not_mem_nil, or_false] at hmem
        rcases hmem with h | h | h
        · exact h
        all_goals (exfalso; subst h; simp at hh <;> omega)
      subst hhead
      simp only [fireTimeoutAt, revealCallback]
      rw [hps]
      simp only [List.drop_succ_cons, List.drop_zero, List.erase_cons_head]
      refine ⟨he0, he1, by simp at hnow ⊢ <;> omega, ?_, ?_, ?_, ?_, ?_⟩
      · intro o' ho'
        simp only [List.mem_cons, List.not_mem_nil, or_false] at ho'
        rcases ho' with h | h <;> subst h <;> exact ⟨rfl, by simp <;> omega⟩
      · intro r hr; exact hfr r hr
      · intro h; rw [hph] at h; exact Phase.noConfusion h
      · intro _
        refine ⟨hel, 2, by omega, by norm_num, ?_⟩
        rw [scheduleReveals_eq]; rfl
      · intro h; rw [hph] at h; exact Phase.noConfusion h
    · -- k = 2: o must be the timeout due runStart + 15000
      have hhead : o = { run := s.st.runKey, due := s.runStart + 15000, index := 2 } := by
        rw [hps] at hmem
        have hh := hmin { run := s.st.runKey, due := s.runStart + 15000, index := 2 }
          (by rw [hps]; simp)
        simp only [List.drop_succ_cons, List.drop_zero, List.mem_cons,
          List.not_mem_nil, or_false] at hmem
        rcases hmem with h | h
        · exact h
        all_goals (exfalso; subst h; simp at hh <;> omega)
      subst hhead
      simp only [fireTimeoutAt, revealCallback]
      rw [hps]
      simp only [List.drop_succ_cons, List.drop_zero, List.erase_cons_head]
      refine ⟨he0, he1, by simp at hnow ⊢ <;> omega, ?_, ?_, ?_, ?_, ?_⟩
      · intro o' ho'
        simp only [List.mem_cons, List.not_mem_nil, or_false] at ho'
        subst ho'; exact ⟨rfl, by simp <;> omega⟩
      · intro r hr; exact hfr r hr
      · intro h; rw [hph] at h; exact Phase.noConfusion h
      · intro _
        refine ⟨hel, 3, by omega, by norm_num, ?_⟩
        rw [scheduleReveals_eq]; rfl
      · intro h; rw [hph] at h; exact Phase.noConfusion h
    · -- k = 3: o must be the timeout due runStart + 20000
      have hhead : o = { run := s.st.runKey, due := s.runStart + 20000, index := 3 } := by
        rw [hps] at hmem
        simp only [List.drop_succ_cons, List.drop_zero, List.mem_cons,
          List.not_mem_nil, or_false] at hmem
        exact hmem
      subst hhead
      simp only [fireTimeoutAt, revealCallback]
      rw [hps]
      simp only [List.drop_succ_cons, List.drop_zero, List.erase_cons_head]
      refine ⟨he0, he1, by simp at hnow ⊢ <;> omega, ?_, ?_, ?_, ?_, ?_⟩
      · intro o' ho'; simp at ho'
      · intro r hr; exact hfr r hr
      · intro h; rw [hph] at h; exact Phase.noConfusion h
      · intro _
        refine ⟨hel, 4, by omega, by norm_num, ?_⟩
        rw [scheduleReveals_eq]; rfl
      · intro h; rw [hph] at h; exact Phase.noConfusion h
    · -- k = 4: no pending timeouts, contradiction with membership
      rw [hps] at hmem
      simp at hmem

/-- Delivering the animation frame preserves the invariant. -/
theorem sysInv_frame (s : SysState) (r : ℕ) (t : ℤ)
    (hinv : SysInv s) (hf : s.pendingFrame = some r) (ht : s.now ≤ t)
    (hdes : ∀ o ∈ s.pendingTimeouts, t ≤ o.due) :
    SysInv (fireFrameAt t s) := by
  obtain ⟨he0, he1, hrn, hpend, hfr, hidle, hrun, hfin⟩ := hinv
  cases hph : s.st.phase with
  | idle => rw [(hidle hph).2.2.2] at hf; exact Option.noConfusion hf
  | finished => rw [(hfin hph).2.2.2] at hf; exact Option.noConfusion hf
  | running =>
    obtain ⟨hel, k, hk, haI, hps⟩ := hrun hph
    by_cases hlt : min (t - s.runStart) totalDuration < totalDuration
    · -- the run continues
      have hshape : fireFrameAt t s =
          { s with now := t,
                   st := { s.st with elapsed := min (t - s.runStart) totalDuration } } := by
        simp [fireFrameAt, loopCallback, hlt]
      rw [hshape]
      rw [totalDuration_eq] at hlt he1
      refine ⟨?_, ?_, ?_, ?_, ?_, ?_, ?_, ?_⟩
      · show (0 : ℤ) ≤ min (t - s.runStart) totalDuration
        rw [totalDuration_eq]; omega
      · show min (t - s.runStart) totalDuration ≤ totalDuration
        rw [totalDuration_eq]; omega
      · show s.runStart ≤ t
        omega
      · intro o ho; exact ⟨(hpend o ho).1, hdes o ho⟩
      · intro r' hr'; exact hfr r' hr'
      · intro h; rw [hph] at h; exact Phase.noConfusion h
      · intro _
        refine ⟨?_, k, hk, haI, hps⟩
        show min (t - s.runStart) totalDuration < totalDuration
        rw [totalDuration_eq]; omega
      · intro h; rw [hph] at h; exact Phase.noConfusion h
    · -- the run finishes: elapsed is clamped to totalDuration, phase set
      have hshape : fireFrameAt t s =
          { now := t,
            st := { s.st with elapsed := min (t - s.runStart) totalDuration,
                              phase := Phase.finished },
            runStart := s.runStart,
            pendingTimeouts := [], pendingFrame := none } := by
        simp [fireFrameAt, loopCallback, effectRun, hlt]
      rw [hshape]
      rw [totalDuration_eq] at hlt
      have hmineq : min (t - s.runStart) (20000 : ℤ) = 20000 := by omega
      refine ⟨?_, ?_, ?_, ?_, ?_, ?_, ?_, ?_⟩
      · show (0 : ℤ) ≤ min (t - s.runStart) totalDuration
        rw [totalDuration_eq]; omega
      · show min (t - s.runStart) totalDuration ≤ totalDuration
        rw [totalDuration_eq]; omega
      · show s.runStart ≤ t
        omega
      · intro o ho; simp at ho
      · intro r' hr'; exact Option.noConfusion hr'
      · intro h; exact Phase.noConfusion h
      · intro h; exact Phase.noConfusion h
      · intro _
        refine ⟨?_, ?_, rfl, rfl⟩
        · show min (t - s.runStart) totalDuration = totalDuration
          rw [totalDuration_eq]; omega
        -- the frame's timestamp is at or past every pending due time, so at
        -- most the final reveal can still be pending: activeIndex is 3 or 4
        rw [scheduleReveals_eq] at hps
        have htrs : s.runStart + 20000 ≤ t := by omega
        interval_cases k
        · exfalso
          have hh := hdes { run := s.st.runKey, due := s.runStart + 5000, index := 0 }
            (by rw [hps]; simp)
          simp at hh; omega
        · exfalso
          have hh := hdes { run := s.st.runKey, due := s.runStart + 10000, index := 1 }
            (by rw [hps]; simp)
          simp at hh; omega
        · exfalso
          have hh := hdes { run := s.st.runKey, due := s.runStart + 15000, index := 2 }
            (by rw [hps]; simp)
          simp at hh; omega
        · left; rw [haI]; norm_num
        · right; rw [haI]; norm_num

/-- Every reachable state satisfies the inductive invariant. -/
theorem reachable_sysInv {s : SysState} (h : Reachable s) : SysInv s := by
  induction h with
  | init => exact sysInv_init
  | step hr hstep ih =>
    cases hstep with
    | start t hphase ht => exact sysInv_startEvent _ t
    | replay t hphase ht => exact sysInv_replayEvent _ t
    | timeout o hmem hmin => exact sysInv_timeout _ o ih hmem hmin
    | frame r t hf ht hdes => exact sysInv_frame _ r t ih hf ht hdes

/-- `progress` in a non-idle phase, with the total duration evaluated. -/
theorem progress_eq (ph : Phase) (e : ℤ) (h : ph ≠ Phase.idle) :
    progress ph e = min ((e : ℚ) / 20000) 1 := by
  unfold progress
  rw [if_neg h, totalDuration_eq]
  norm_num

/-- Claim C10: `totalDuration` is a total, well-defined constant even for
    an empty segment list — the optional-chained indexing with fallback
    yields 20000 on the empty list rather than being undefined — and on
    the actual five-segment script it equals the last segment's offset,
    20000. -/
theorem c10_total_duration :
    totalDurationOf [] = 20000 ∧
    totalDuration = totalDurationOf storySegments ∧
    totalDuration = 20000 ∧
    storySegments.getLast?.map StorySegment.delayMs = some totalDuration :=
  ⟨rfl, rfl, rfl, rfl⟩

/-- Claim C7: `replay()` has an effect identical to `start()`: the two
    handlers are equal as transformers of the reactive state, and the full
    replay event (handler plus effect re-run, cancellation and scheduling)
    coincides with the full start event at every time and system state. -/
theorem c7_replay_eq_start :
    handleReplay = handleStart ∧
    ∀ (t : ℤ) (s : SysState), replayEventAt t s = startEventAt t s :=
  ⟨rfl, fun _ _ => rfl⟩

/-- Claim C6: invoking start() from a state whose phase is idle or
    finished yields activeIndex = 0, elapsed = 0, phase = running, and a
    run identifier exactly one greater than before.  (The segment script
    is a module-level constant outside the mutable state, so no state
    transition can alter it.) -/
theorem c6_start_contract (s : SysState) (t : ℤ)
    (h : s.st.phase = Phase.idle ∨ s.st.phase = Phase.finished) :
    (startEventAt t s).st.activeIndex = 0 ∧
    (startEventAt t s).st.elapsed = 0 ∧
    (startEventAt t s).st.phase = Phase.running ∧
    (startEventAt t s).st.runKey = s.st.runKey + 1 :=
  ⟨rfl, rfl, rfl, rfl⟩

/-- Witness for C6 at the initial (idle) state and time 0. -/
theorem c6_start_contract_witness :
    (initState.st.phase = Phase.idle ∨ initState.st.phase = Phase.finished) ∧
    ((startEventAt 0 initState).st.activeIndex = 0 ∧
     (startEventAt 0 initState).st.elapsed = 0 ∧
     (startEventAt 0 initState).st.phase = Phase.running ∧
     (startEventAt 0 initState).st.runKey = initState.st.runKey + 1) :=
  ⟨Or.inl rfl, c6_start_contract initState 0 (Or.inl rfl)⟩

/-- Claim C4: start() followed immediately by replay() leaves the system
    in a state equivalent to a single fresh start(): every observable
    component — phase, activeIndex, elapsed, the clock, the captured run
    start, the due times and callback indices of the pending reveal
    timeouts, and the presence of a frame request — coincides with a
    single start, and no reveal of the first run survives: every pending
    timeout after the restart carries the current run identifier. -/
theorem c4_restart_equiv (s : SysState) (t : ℤ) :
    (replayEventAt t (startEventAt t s)).st.phase = (startEventAt t s).st.phase ∧
    (replayEventAt t (startEventAt t s)).st.activeIndex
      = (startEventAt t s).st.activeIndex ∧
    (replayEventAt t (startEventAt t s)).st.elapsed = (startEventAt t s).st.elapsed ∧
    (replayEventAt t (startEventAt t s)).now = (startEventAt t s).now ∧
    (replayEventAt t (startEventAt t s)).runStart = (startEventAt t s).runStart ∧
    (replayEventAt t (startEventAt t s)).pendingTimeouts.map (fun o => (o.due, o.index))
      = (startEventAt t s).pendingTimeouts.map (fun o => (o.due, o.index)) ∧
    (replayEventAt t (startEventAt t s)).pendingFrame.isSome
      = (startEventAt t s).pendingFrame.isSome ∧
    ∀ o ∈ (replayEventAt t (startEventAt t s)).pendingTimeouts,
      o.run = (replayEventAt t (startEventAt t s)).st.runKey := by
  refine ⟨rfl, rfl, rfl, rfl, rfl, rfl, rfl, ?_⟩
  intro o ho
  rw [replayEventAt_eq, scheduleReveals_eq] at ho
  simp only [List.mem_cons, List.not_mem_nil, or_false] at ho
  rcases ho with h | h | h | h <;> subst h <;> rfl

/-- Claim C1, counterexample: the reveal-timeout callback does not capture
    the run identifier and performs no staleness check.  The first run
    (runKey 1) schedules a timeout whose callback is `revealCallback 0`;
    executing that callback against a playback state of a later run
    (runKey 2 ≠ 1) does not leave the state unchanged — it overwrites
    `activeIndex` unconditionally. -/
theorem c1_counterexample :
    ({ run := 1, due := 5000, index := 0 } : Timeout) ∈ scheduleReveals 1 0 ∧
    staleState.runKey ≠ 1 ∧
    (revealCallback 0 staleState).activeIndex ≠ staleState.activeIndex :=
  ⟨by decide, by decide, by decide⟩

/-- Claim C1, amended: the implementation protects a new run by
    cancellation, not by a generation-token guard inside the callbacks —
    the effect cleanup that runs whenever `phase` or `runKey` changes
    clears every reveal timeout and the frame request of the outgoing run.
    Hence in every reachable state each pending reveal timeout and the
    pending frame request belong to the current run; a callback of a
    superseded run is never pending, so it never fires, and in particular
    a reveal timeout from a superseded run never sets `activeIndex` in the
    new run. -/
theorem c1_no_stale_callback (s : SysState) (h : Reachable s) :
    (∀ o ∈ s.pendingTimeouts, o.run = s.st.runKey) ∧
    (∀ r, s.pendingFrame = some r → r = s.st.runKey) := by
  obtain ⟨-, -, -, hpend, hfr, -, -, -⟩ := reachable_sysInv h
  exact ⟨fun o ho => (hpend o ho).1, hfr⟩

/-- Witness for C1 just after a start at time 0: the four pending reveals
    and the frame request all carry the current run identifier 1. -/
theorem c1_no_stale_callback_witness :
    Reachable (startEventAt 0 initState) ∧
    ((∀ o ∈ (startEventAt 0 initState).pendingTimeouts,
        o.run = (startEventAt 0 initState).st.runKey) ∧
     (∀ r, (startEventAt 0 initState).pendingFrame = some r →
        r = (startEventAt 0 initState).st.runKey)) := by
  have hre : Reachable (startEventAt 0 initState) :=
    Reachable.step Reachable.init (Step.start initState 0 rfl (by decide))
  exact ⟨hre, c1_no_stale_callback (startEventAt 0 initState) hre⟩

/-- Claim C2, counterexample: the conjunct "phase = finished implies
    activeIndex = segments.length − 1" fails on a reachable state.  Trace:
    start at 0; reveals delivered at 5000, 10000 and 15000; then the
    animation frame with timestamp 20000 is delivered before the reveal
    timeout due at the same instant 20000 (the host guarantees no order
    between events at equal timestamps).  The frame sets the phase to
    finished, and the effect cleanup triggered by that phase change
    cancels the final reveal timeout, so activeIndex stays 3 forever. -/
theorem c2_counterexample :
    Reachable raceState ∧
    raceState.st.phase = Phase.finished ∧
    (storySegments.length : ℤ) - 1 = 4 ∧
    raceState.st.activeIndex = 3 := by
  refine ⟨?_, by decide, by decide, by decide⟩
  have h0 : Reachable (startEventAt 0 initState) :=
    Reachable.step Reachable.init (Step.start initState 0 rfl (by decide))
  have h1 := Reachable.step h0
    (Step.timeout _ { run := 1, due := 5000, index := 0 } (by decide) (by decide))
  have h2 := Reachable.step h1
    (Step.timeout _ { run := 1, due := 10000, index := 1 } (by decide) (by decide))
  have h3 := Reachable.step h2
    (Step.timeout _ { run := 1, due := 15000, index := 2 } (by decide) (by decide))
  exact Reachable.step h3 (Step.frame _ 1 20000 (by decide) (by decide) (by decide))

/-- Claim C2, amended: in every reachable state, whenever phase ≠ idle,
    0 ≤ activeIndex < segments.length; elapsed ∈ [0, totalDuration]; and
    phase = finished implies elapsed = totalDuration and activeIndex is
    the last index, 4 — or 3 when the final animation frame was delivered
    at the same instant as, but before, the final reveal timeout, in which
    case finishing cancels that reveal (the race exhibited by the
    counterexample). -/
theorem c2_invariants (s : SysState) (h : Reachable s) :
    (s.st.phase ≠ Phase.idle →
      0 ≤ s.st.activeIndex ∧ s.st.activeIndex < (storySegments.length : ℤ)) ∧
    (0 ≤ s.st.elapsed ∧ s.st.elapsed ≤ totalDuration) ∧
    (s.st.phase = Phase.finished →
      s.st.elapsed = totalDuration ∧
      (s.st.activeIndex = (storySegments.length : ℤ) - 1 ∨
       s.st.activeIndex = (storySegments.length : ℤ) - 2)) := by
  obtain ⟨he0, he1, -, -, -, hidle, hrun, hfin⟩ := reachable_sysInv h
  have hlen : (storySegments.length : ℤ) = 5 := rfl
  refine ⟨?_, ⟨he0, he1⟩, ?_⟩
  · intro hni
    cases hph : s.st.phase with
    | idle => exact absurd hph hni
    | running =>
      obtain ⟨-, k, hk, haI, -⟩ := hrun hph
      omega
    | finished =>
      obtain ⟨-, haI, -, -⟩ := hfin hph
      rcases haI with h34 | h34 <;> omega
  · intro hph
    obtain ⟨hel, haI, -, -⟩ := hfin hph
    refine ⟨hel, ?_⟩
    rcases haI with h34 | h34 <;> omega

/-- Witness for C2 just after a start at time 0 (a running state). -/
theorem c2_invariants_witness :
    Reachable (startEventAt 0 initState) ∧
    (((startEventAt 0 initState).st.phase ≠ Phase.idle →
       0 ≤ (startEventAt 0 initState).st.activeIndex ∧
       (startEventAt 0 initState).st.activeIndex < (storySegments.length : ℤ)) ∧
     (0 ≤ (startEventAt 0 initState).st.elapsed ∧
      (startEventAt 0 initState).st.elapsed ≤ totalDuration) ∧
     ((startEventAt 0 initState).st.phase = Phase.finished →
       (startEventAt 0 initState).st.elapsed = totalDuration ∧
       ((startEventAt 0 initState).st.activeIndex = (storySegments.length : ℤ) - 1 ∨
        (startEventAt 0 initState).st.activeIndex = (storySegments.length : ℤ) - 2))) := by
  have hre : Reachable (startEventAt 0 initState) :=
    Reachable.step Reachable.init (Step.start initState 0 rfl (by decide))
  exact ⟨hre, c2_invariants (startEventAt 0 initState) hre⟩

/-- Claim C3, counterexample to the "clamped at both ends" part: the
    source computes `Math.min(elapsed / totalDuration, 1)` with no lower
    clamp, so for a (hypothetical, jitter-induced) negative elapsed the
    progress fraction is negative rather than clamped to 0. -/
theorem c3_counterexample : progress Phase.running (-1) < 0 := by
  rw [progress_eq Phase.running (-1) (by decide),
      min_eq_left (by norm_num : ((-1 : ℤ) : ℚ) / 20000 ≤ 1)]
  norm_num

/-- Claim C3, amended: the progress fraction is clamped above only; it
    nevertheless satisfies 0 ≤ progress ≤ 1 on every reachable state —
    the lower bound holds because reachable elapsed is never negative,
    not because of a lower clamp — it is 0 when the phase is idle, and it
    equals 1 exactly when the phase is finished. -/
theorem c3_progress_bounds (s : SysState) (h : Reachable s) :
    0 ≤ progress s.st.phase s.st.elapsed ∧
    progress s.st.phase s.st.elapsed ≤ 1 ∧
    (s.st.phase = Phase.idle → progress s.st.phase s.st.elapsed = 0) ∧
    (progress s.st.phase s.st.elapsed = 1 ↔ s.st.phase = Phase.finished) := by
  obtain ⟨he0, he1, -, -, -, hidle, hrun, hfin⟩ := reachable_sysInv h
  cases hph : s.st.phase with
  | idle =>
    have hp : progress Phase.idle s.st.elapsed = 0 := by
      unfold progress
      rw [if_pos rfl]
    rw [hp]
    refine ⟨le_refl 0, by norm_num, fun _ => rfl, ?_⟩
    constructor
    · intro h01; exact absurd h01 (by norm_num)
    · intro hfi; exact Phase.noConfusion hfi
  | running =>
    obtain ⟨hel, -⟩ := hrun hph
    rw [totalDuration_eq] at hel
    rw [progress_eq Phase.running s.st.elapsed (by decide)]
    have hdiv0 : (0 : ℚ) ≤ (s.st.elapsed : ℚ) / 20000 :=
      div_nonneg (by exact_mod_cast he0) (by norm_num)
    refine ⟨le_min hdiv0 (by norm_num), min_le_right _ _, ?_, ?_⟩
    · intro hcontra; exact Phase.noConfusion hcontra
    · constructor
      · intro h1
        exfalso
        have h1' : (1 : ℚ) ≤ (s.st.elapsed : ℚ) / 20000 := min_eq_right_iff.mp h1
        have h2 : (20000 : ℚ) ≤ (s.st.elapsed : ℚ) :=
          (one_le_div (by norm_num : (0 : ℚ) < 20000)).mp h1'
        have h3 : (20000 : ℤ) ≤ s.st.elapsed := by exact_mod_cast h2
        omega
      · intro hc; exact Phase.noConfusion hc
  | finished =>
    obtain ⟨hel, -, -, -⟩ := hfin hph
    rw [totalDuration_eq] at hel
    have hp : progress Phase.finished s.st.elapsed = 1 := by
      rw [progress_eq Phase.finished s.st.elapsed (by decide), hel]
      norm_num
    rw [hp]
    refine ⟨by norm_num, le_refl 1, ?_, ?_⟩
    · intro hcontra; exact Phase.noConfusion hcontra
    · exact ⟨fun _ => rfl, fun _ => rfl⟩

/-- Witness for C3 at the initial state. -/
theorem c3_progress_bounds_witness :
    Reachable initState ∧
    0 ≤ progress initState.st.phase initState.st.elapsed ∧
    progress initState.st.phase initState.st.elapsed ≤ 1 ∧
    (initState.st.phase = Phase.idle →
      progress initState.st.phase initState.st.elapsed = 0) ∧
    (progress initState.st.phase initState.st.elapsed = 1 ↔
      initState.st.phase = Phase.finished) := by
  have hx := c3_progress_bounds initState Reachable.init
  exact ⟨Reachable.init, hx.1, hx.2.1, hx.2.2.1, hx.2.2.2⟩

/-- Claim C5: the remaining-time label is the pure function of phase and
    elapsed described by the spec — "00:00" when finished, otherwise "00:"
    followed by ceil(max(totalDuration − elapsed, 0)/1000) zero-padded to
    two digits, never negative — and takes the four concrete values of the
    claim on a 20000 ms total duration. -/
theorem c5_remaining_label :
    (∀ (ph : Phase) (e : ℤ), remainingLabel ph e = specRemainingLabel ph e) ∧
    remainingLabel Phase.running 0 = "00:20" ∧
    remainingLabel Phase.running 20000 = "00:00" ∧
    remainingLabel Phase.running 15000 = "00:05" ∧
    remainingLabel Phase.running 14001 = "00:06" := by
  refine ⟨fun ph e => rfl, ?_, ?_, ?_, ?_⟩
  · show "00:" ++ padStart2 (toString (⌈((max (totalDuration - 0) 0 : ℤ) : ℚ) / 1000⌉ : ℤ))
      = "00:20"
    rw [show (max (totalDuration - 0) 0 : ℤ) = 20000 by decide]
    rw [show (⌈((20000 : ℤ) : ℚ) / 1000⌉ : ℤ) = 20 by rw [Int.ceil_eq_iff] <;> norm_num]
    decide
  · show "00:" ++ padStart2 (toString (⌈((max (totalDuration - 20000) 0 : ℤ) : ℚ) / 1000⌉ : ℤ))
      = "00:00"
    rw [show (max (totalDuration - 20000) 0 : ℤ) = 0 by decide]
    rw [show (⌈((0 : ℤ) : ℚ) / 1000⌉ : ℤ) = 0 by rw [Int.ceil_eq_iff] <;> norm_num]
    decide
  · show "00:" ++ padStart2 (toString (⌈((max (totalDuration - 15000) 0 : ℤ) : ℚ) / 1000⌉ : ℤ))
      = "00:05"
    rw [show (max (totalDuration - 15000) 0 : ℤ) = 5000 by decide]
    rw [show (⌈((5000 : ℤ) : ℚ) / 1000⌉ : ℤ) = 5 by rw [Int.ceil_eq_iff] <;> norm_num]
    decide
  · show "00:" ++ padStart2 (toString (⌈((max (totalDuration - 14001) 0 : ℤ) : ℚ) / 1000⌉ : ℤ))
      = "00:06"
    rw [show (max (totalDuration - 14001) 0 : ℤ) = 5999 by decide]
    rw [show (⌈((5999 : ℤ) : ℚ) / 1000⌉ : ℤ) = 6 by rw [Int.ceil_eq_iff] <;> norm_num]
    decide

/-- Claim C8: revealedSegments is a pure function of activeIndex — empty
    for a negative index, and otherwise exactly the prefix of the fixed
    segment sequence from 0 through activeIndex inclusive: it has length
    activeIndex + 1 and concatenating the rest of the sequence after it
    restores the sequence (so the elements appear in original order). -/
theorem c8_revealed_segments :
    (∀ i : ℤ, i < 0 → revealedSegments i = []) ∧
    (∀ i : ℤ, 0 ≤ i → i < (storySegments.length : ℤ) →
      (revealedSegments i).length = i.toNat + 1 ∧
      revealedSegments i ++ storySegments.drop (i.toNat + 1) = storySegments) := by
  constructor
  · intro i hi
    unfold revealedSegments
    rw [if_pos hi]
  · intro i h0 h5
    have hlen : (storySegments.length : ℤ) = 5 := rfl
    have hiv : ¬ i < 0 := by omega
    have hto : (i + 1).toNat = i.toNat + 1 := by omega
    unfold revealedSegments
    rw [if_neg hiv, hto]
    constructor
    · rw [List.length_take]
      have hl5 : storySegments.length = 5 := rfl
      omega
    · exact List.take_append_drop _ _

/-- Witness for C8 at activeIndex −1 (nothing revealed) and 2 (the first
    three segments revealed). -/
theorem c8_revealed_segments_witness :
    ((-1 : ℤ) < 0 ∧ revealedSegments (-1) = []) ∧
    ((0 : ℤ) ≤ 2 ∧ (2 : ℤ) < (storySegments.length : ℤ) ∧
      ((revealedSegments 2).length = (2 : ℤ).toNat + 1 ∧
       revealedSegments 2 ++ storySegments.drop ((2 : ℤ).toNat + 1) = storySegments)) :=
  ⟨⟨by decide, c8_revealed_segments.1 (-1) (by decide)⟩,
   ⟨by decide, by decide, c8_revealed_segments.2 2 (by decide) (by decide)⟩⟩

/-- Claim C9: a revealed segment at position i is marked "Now" exactly
    when i = activeIndex and the phase is not finished; when the phase is
    finished the final segment is marked "Arrival"; every other revealed,
    non-active segment is marked "Echo". -/
theorem c9_segment_marker (i : Fin storySegments.length) (aI : ℤ) (ph : Phase) :
    (segMarker (storySegments.get i) (i : ℕ) aI ph = "Now" ↔
      (((i : ℕ) : ℤ) = aI ∧ ph ≠ Phase.finished)) ∧
    (ph = Phase.finished → (i : ℕ) = storySegments.length - 1 →
      segMarker (storySegments.get i) (i : ℕ) aI ph = "Arrival") ∧
    (¬(((i : ℕ) : ℤ) = aI ∧ ph ≠ Phase.finished) →
      ¬((i : ℕ) = storySegments.length - 1 ∧ ph = Phase.finished) →
      segMarker (storySegments.get i) (i : ℕ) aI ph = "Echo") := by
  have hfineq : ((storySegments.get? (storySegments.length - 1)).map StorySegment.id
      = some (storySegments.get i).id) ↔ (i : ℕ) = storySegments.length - 1 := by
    fin_cases i <;> decide
  by_cases hact : (((i : ℕ) : ℤ) = aI ∧ ph ≠ Phase.finished)
  · have hm : segMarker (storySegments.get i) (i : ℕ) aI ph = "Now" := by
      unfold segMarker
      rw [if_pos hact]
    rw [hm]
    exact ⟨iff_of_true rfl hact, fun hf _ => absurd hf hact.2, fun hn _ => absurd hact hn⟩
  · by_cases hLast : ((i : ℕ) = storySegments.length - 1 ∧ ph = Phase.finished)
    · have hm : segMarker (storySegments.get i) (i : ℕ) aI ph = "Arrival" := by
        unfold segMarker
        rw [if_neg hact, if_pos ⟨hfineq.mpr hLast.1, hLast.2⟩]
      rw [hm]
      refine ⟨iff_of_false (by decide) hact, fun _ _ => rfl, ?_⟩
      intro _ hn
      exact absurd hLast hn
    · have hnof : ¬(((storySegments.get? (storySegments.length - 1)).map StorySegment.id
          = some (storySegments.get i).id) ∧ ph = Phase.finished) := by
        intro hc
        exact hLast ⟨hfineq.mp hc.1, hc.2⟩
      have hm : segMarker (storySegments.get i) (i : ℕ) aI ph = "Echo" := by
        unfold segMarker
        rw [if_neg hact, if_neg hnof]
      rw [hm]
      refine ⟨iff_of_false (by decide) hact, ?_, fun _ _ => rfl⟩
      intro hf hi
      exact absurd ⟨hi, hf⟩ hLast

/-- Witness for C9: the final segment shows "Arrival" once finished, a
    no-longer-active revealed segment shows "Echo", and the segment at the
    active index shows "Now" while running. -/
theorem c9_segment_marker_witness :
    segMarker (storySegments.get ⟨4, by decide⟩) 4 4 Phase.finished = "Arrival" ∧
    segMarker (storySegments.get ⟨1, by decide⟩) 1 2 Phase.running = "Echo" ∧
    segMarker (storySegments.get ⟨2, by decide⟩) 2 2 Phase.running = "Now" :=
  ⟨(c9_segment_marker ⟨4, by decide⟩ 4 Phase.finished).2.1 rfl (by decide),
   (c9_segment_marker ⟨1, by decide⟩ 2 Phase.running).2.2 (by decide) (by decide),
   (c9_segment_marker ⟨2, by decide⟩ 2 Phase.running).1.mpr (by decide)⟩
